import Mathlib

/-!
Verification development for the `viddown` video-download backend.

The Go sources are embedded shallowly:

* `services.parseFormats` (backend/services: format normalizer),
  `services.GetBestFormats` (format ranker) and `extractBitrate` become
  pure Lean functions over explicit records.
* The download HTTP handler `DownloadHandler.ServeHTTP`
  (backend/handlers/download.go) becomes a function from a request, an
  environment of oracle outcomes for every fallible effect, and a
  semaphore state to an explicit result record; Go `defer` statements are
  resolved by writing each exit point with its pending deferred actions.
* The post-subprocess portion of `YtDlpService.DownloadToFile`
  (glob, basename handling, stat checks) becomes `downloadToFileLocate`.
* Go `float64` audio bitrates are modelled by the integer that
  `fmt.Sprintf("%.0f", …)` would print (the claims only exercise
  integral bitrates); `int`/`int64` fields are modelled as `Int`.
* The semaphore (`services.Semaphore`) implementation is not part of the
  given sources, only its call sites are; it is modelled from the spec
  (see `Sem`, `tryAcquire`, `release`).
-/

namespace Viddown

/-- Decimal digits of `n`, most significant first, via a fuel argument so
that the definition reduces by `decide`/`rfl`.  Mirrors what Go prints
for `%d` of a nonnegative integer. -/
def decDigitsCore : Nat → Nat → List Char
  | 0, _ => []
  | fuel + 1, n =>
    if n < 10 then [Nat.digitChar n]
    else decDigitsCore fuel (n / 10) ++ [Nat.digitChar (n % 10)]

/-- Decimal rendering of a natural number (what `fmt.Sprintf("%d", n)`
prints for `n ≥ 0`). -/
def natToDecimal (n : Nat) : String :=
  ⟨decDigitsCore (n + 1) n⟩

/-- One raw encoding record as reported by the external tool
(Go struct `ytdlpFormat` in backend/services). -/
structure YtdlpFormat where
  FormatID : String
  Ext : String
  Resolution : String
  VCodec : String
  ACodec : String
  Filesize : Int
  /-- Audio bitrate: the integer `fmt.Sprintf("%.0f", ABR)` would print. -/
  ABR : Int
  Height : Int
  FormatNote : String
  deriving DecidableEq, Repr

/-- A normalized user-facing format (Go struct `Format`); the Go field
`Type` is spelt `Typ` because `Type` is a Lean keyword. -/
structure Format where
  ID : String
  Typ : String
  Quality : String
  Ext : String
  Size : Int
  deriving DecidableEq, Repr

/-- One iteration body of the `parseFormats` loop, before deduplication:
classifies a single raw encoding, returning `none` where the Go loop
executes `continue`. -/
def parseOne (f : YtdlpFormat) : Option Format :=
  if f.FormatID = "" then none
  else if f.VCodec = "none" ∧ f.ACodec ≠ "none" then
    let quality := if f.ABR > 0 then natToDecimal f.ABR.toNat ++ "kbps" else "audio"
    some ⟨f.FormatID, "audio", quality, f.Ext, f.Filesize⟩
  else if f.VCodec ≠ "none" then
    -- Prefer only mp4 container for better compatibility on Windows
    if f.Ext ≠ "mp4" then none
    else if f.Height > 0 then
      some ⟨f.FormatID, "video", natToDecimal f.Height.toNat ++ "p", f.Ext, f.Filesize⟩
    else if f.Resolution ≠ "" ∧ f.Resolution ≠ "audio only" then
      some ⟨f.FormatID, "video", f.Resolution, f.Ext, f.Filesize⟩
    else none
  else none

/-- The deduplication key `fmt.Sprintf("%s-%s-%s", formatType, quality, f.Ext)`. -/
def dedupKey (d : Format) : String :=
  d.Typ ++ "-" ++ d.Quality ++ "-" ++ d.Ext

/-- The `parseFormats` loop with its `seen` set (Go `map[string]bool`,
modelled as the list of keys inserted so far). -/
def parseFormatsLoop : List YtdlpFormat → List String → List Format
  | [], _ => []
  | f :: rest, seen =>
    match parseOne f with
    | none => parseFormatsLoop rest seen
    | some d =>
      if dedupKey d ∈ seen then parseFormatsLoop rest seen
      else d :: parseFormatsLoop rest (dedupKey d :: seen)

/-- Go `YtDlpService.parseFormats`: normalize and deduplicate raw encodings. -/
def parseFormats (ytFormats : List YtdlpFormat) : List Format :=
  parseFormatsLoop ytFormats []

/-- Go `strings.HasPrefix(s, pre)`, over the underlying character lists so
that it reduces inside the kernel. -/
def goStartsWith (s pre : String) : Bool :=
  pre.data.isPrefixOf s.data

/-- Go `extractBitrate` helper: `strings.TrimSuffix(quality, "kbps")`. -/
def trimSuffixKbps (s : String) : String :=
  let r := s.data.reverse
  if r.take 4 = ['s', 'p', 'b', 'k'] then ⟨(r.drop 4).reverse⟩ else s

/-- Value of a nonempty all-digit character list, `none` otherwise. -/
def digitsVal : List Char → Option Nat
  | [] => none
  | [c] => if c.isDigit then some (c.toNat - 48) else none
  | c :: rest =>
    if c.isDigit then
      match digitsVal rest with
      | some v => some ((c.toNat - 48) * 10 ^ rest.length + v)
      | none => none
    else none

/-- Go `strconv.Atoi` (i.e. `ParseInt(s, 10, 0)` with 64-bit `int`):
optional sign, one or more digits, in-range for `int64`. -/
def goAtoi (s : String) : Option Int :=
  match s.data with
  | '+' :: rest =>
    match digitsVal rest with
    | some v => if (v : Int) ≤ 2 ^ 63 - 1 then some (v : Int) else none
    | none => none
  | '-' :: rest =>
    match digitsVal rest with
    | some v => if (v : Int) ≤ 2 ^ 63 then some (-(v : Int)) else none
    | none => none
  | l =>
    match digitsVal l with
    | some v => if (v : Int) ≤ 2 ^ 63 - 1 then some (v : Int) else none
    | none => none

/-- Go `extractBitrate`: parse the numeric part of a quality label,
0 when unparsable. -/
def extractBitrate (quality : String) : Int :=
  match goAtoi (trimSuffixKbps quality) with
  | some bitrate => bitrate
  | none => 0

/-- The best-audio scan of `GetBestFormats`: keep the first audio entry,
replace it only on a strictly larger parsed bitrate. -/
def findBestAudioLoop : List Format → Option Format → Option Format
  | [], bestAudio => bestAudio
  | f :: rest, bestAudio =>
    if f.Typ = "audio" then
      match bestAudio with
      | none => findBestAudioLoop rest (some f)
      | some b =>
        if extractBitrate f.Quality > extractBitrate b.Quality then
          findBestAudioLoop rest (some f)
        else
          findBestAudioLoop rest (some b)
    else findBestAudioLoop rest bestAudio

def findBestAudio (formats : List Format) : Option Format :=
  findBestAudioLoop formats none

/-- The Go literal map `resLabels`; lookup of an absent key yields `""`. -/
def resLabels (res : Nat) : String :=
  if res = 360 then "360p"
  else if res = 480 then "480p"
  else if res = 720 then "720p HD"
  else if res = 1080 then "1080p Full HD"
  else ""

/-- The inner scan of `GetBestFormats` for one resolution tier: the first
`video` entry whose quality starts with the decimal tier value yields a
merged offer (when a best audio exists) and a video-only offer; the Go
`break` makes later matches irrelevant. -/
def tierOffers (bestAudio : Option Format) (formats : List Format) (res : Nat) :
    List Format :=
  match formats.find? (fun f =>
      f.Typ == "video" && goStartsWith f.Quality (natToDecimal res)) with
  | none => []
  | some f =>
    (match bestAudio with
     | some ba =>
       [⟨f.ID ++ "+" ++ ba.ID, "video", resLabels res ++ " (видео + аудио)",
         "mp4", f.Size + ba.Size⟩]
     | none => []) ++
    [⟨f.ID, "video_only", resLabels res ++ " (только видео)", f.Ext, f.Size⟩]

/-- Go `YtDlpService.GetBestFormats`: the curated offer list. -/
def GetBestFormats (formats : List Format) : List Format :=
  let bestAudio := findBestAudio formats
  (match bestAudio with
   | some ba =>
     [⟨ba.ID, "audio", "Лучшее аудио (" ++ ba.Quality ++ ")", ba.Ext, ba.Size⟩]
   | none => []) ++
  ([360, 480, 720, 1080].flatMap (tierOffers bestAudio formats))

/-!  The concurrency gate and the download HTTP handler.  -/

/-- Modelled from the spec: the `services.Semaphore` implementation is not
among the given sources (only its call sites in `main.go` and the download
handler are).  Following spec §4.3, it is a counting permit pool of fixed
capacity whose state is the number of held permits, strictly in `{0..N}`. -/
structure Sem where
  capacity : Nat
  held : Nat
  deriving DecidableEq, Repr

/-- Modelled from the spec: `TryAcquire` is non-blocking — it takes a
permit and answers `true` exactly when capacity remains, else answers
`false` without changing the pool. -/
def tryAcquire (s : Sem) : Bool × Sem :=
  if s.held < s.capacity then (true, { s with held := s.held + 1 })
  else (false, s)

/-- Modelled from the spec: `Release` returns one held permit to the pool. -/
def release (s : Sem) : Sem :=
  { s with held := s.held - 1 }

/-- The request data the download handler reads
(`r.Method` and the `url`, `format_id`, `type` query parameters). -/
structure Request where
  method : String
  urlParam : String
  formatIdParam : String
  typeParam : String
  deriving DecidableEq, Repr

/-- Outcomes of the fallible effects the download handler performs, in
program order: `url.QueryUnescape`, `os.MkdirAll`, `DownloadToFile`,
`os.Open`, `file.Stat`, `io.Copy`. -/
structure HandlerEnv where
  decodeResult : Option String
  mkdirOk : Bool
  downloadResult : Except String (String × String)
  openOk : Bool
  statOk : Bool
  copyOk : Bool
  deriving Repr

/-- Observable outcome of one run of `DownloadHandler.ServeHTTP`:
the HTTP status written, the final semaphore state, whether `TryAcquire`
was called and what it answered, how many times `Release` ran, whether
`DownloadToFile` was invoked, every path passed to `os.Remove`, and the
file streamed to the response body (if any). -/
structure HResult where
  status : Nat
  sem : Sem
  triedAcquire : Bool
  acquired : Bool
  releases : Nat
  downloadInvoked : Bool
  removed : List String
  streamedFile : Option String
  deriving Repr

/-- Go `DownloadHandler.ServeHTTP` (backend/handlers/download.go), with
each `defer` resolved into every exit point it covers: `Release` is
deferred right after a successful `TryAcquire`, `os.Remove(tempFile)`
right after a successful `DownloadToFile`. -/
def serveHTTP (req : Request) (env : HandlerEnv) (s0 : Sem) : HResult :=
  if req.method ≠ "GET" then
    ⟨405, s0, false, false, 0, false, [], none⟩
  else if req.urlParam = "" then
    ⟨400, s0, false, false, 0, false, [], none⟩
  else
    match env.decodeResult with
    | none => ⟨400, s0, false, false, 0, false, [], none⟩
    | some _ =>
      let acq := tryAcquire s0
      if ¬acq.1 then
        ⟨503, acq.2, true, false, 0, false, [], none⟩
      else
        -- from here every exit runs the deferred Release exactly once
        if ¬env.mkdirOk then
          ⟨500, release acq.2, true, true, 1, false, [], none⟩
        else
          match env.downloadResult with
          | .error _ => ⟨500, release acq.2, true, true, 1, true, [], none⟩
          | .ok (tempFile, _) =>
            -- from here every exit also runs the deferred os.Remove
            if ¬env.openOk then
              ⟨500, release acq.2, true, true, 1, true, [tempFile], none⟩
            else if ¬env.statOk then
              ⟨500, release acq.2, true, true, 1, true, [tempFile], none⟩
            else if ¬env.copyOk then
              -- io.Copy failed after the headers were sent: the handler
              -- just returns (status already committed as 200), and the
              -- deferred Remove and Release still run
              ⟨200, release acq.2, true, true, 1, true, [tempFile],
               some tempFile⟩
            else
              ⟨200, release acq.2, true, true, 1, true, [tempFile],
               some tempFile⟩

/-!  The post-subprocess portion of `YtDlpService.DownloadToFile`.  -/

/-- Drop trailing `/` characters (helper for `filepathBase`). -/
def dropTrailingSlashes (l : List Char) : List Char :=
  (l.reverse.dropWhile (fun c => c = '/')).reverse

/-- The part of a character list after its last `/`. -/
def afterLastSlash (l : List Char) : List Char :=
  ((l.reverse.takeWhile (fun c => c ≠ '/'))).reverse

/-- Go `filepath.Base` (Unix rules): empty path gives `"."`, trailing
slashes are removed, all-slash paths give `"/"`, otherwise the last
path element. -/
def filepathBase (path : String) : String :=
  if path = "" then "."
  else
    let trimmed := dropTrailingSlashes path.data
    if trimmed = [] then "/" else ⟨afterLastSlash trimmed⟩

/-- Go `strings.SplitN(s, "_", 2)` followed by the handler's use of it:
the part after the first `_` when one exists, else the whole string. -/
def dropUnderscoreTag (s : String) : String :=
  match s.data.splitOnP (fun c => c = '_') with
  | [] => s
  | [_] => s
  | _ :: rest0 :: restMore =>
    -- SplitN with limit 2 keeps everything after the first separator
    ⟨List.intercalate ['_'] (rest0 :: restMore)⟩

/-- Outcomes of the filesystem effects in the locate phase of
`DownloadToFile`: the `filepath.Glob` call (error flag and matches) and
`os.Stat` (`none` = error, `some n` = a file of size `n`). -/
structure LocateEnv where
  globErr : Bool
  globMatches : List String
  statSize : String → Option Int

/-- Lines 248–283 of `YtDlpService.DownloadToFile`: find the downloaded
file from the glob matches, strip the timestamp prefix from its basename,
and validate existence and non-zero size.  Returns the file path and the
display filename. -/
def downloadToFileLocate (env : LocateEnv) : Except String (String × String) :=
  if env.globErr ∨ env.globMatches = [] then
    .error "could not find downloaded file"
  else
    match env.globMatches with
    | [] => .error "could not find downloaded file"
    | filePath :: _ =>
      -- Get the first match (the code assumes there is only one)
      let baseName := filepathBase filePath
      let filename := dropUnderscoreTag baseName
      match env.statSize filePath with
      | none => .error "downloaded file not found"
      | some sz =>
        if sz = 0 then .error "downloaded file is empty"
        else .ok (filePath, filename)

/-!  The content-type selection of the download handler.  -/

/-- Go `filepath.Ext`: the suffix starting at the final dot in the final
slash-separated element, empty when there is no dot. -/
def filepathExtAux : List Char → List Char → String
  | [], _ => ""
  | c :: restRev, acc =>
    if c = '/' then ""
    else if c = '.' then ⟨c :: acc⟩
    else filepathExtAux restRev (c :: acc)

def filepathExt (path : String) : String :=
  filepathExtAux path.data.reverse []

/-- Lines 113–124 of the download handler: an empty extension is replaced
by `.mp4`; the content type comes from `mime.TypeByExtension` (modelled as
the `mimeLookup` argument, `""` = unmapped), with a fixed fallback. -/
def contentTypeFor (mimeLookup : String → String) (filename : String) : String :=
  let ext0 := filepathExt filename
  let ext := if ext0 = "" then ".mp4" else ext0
  let fromMime := mimeLookup ext
  if fromMime = "" then "application/octet-stream" else fromMime

/-- A concrete media-type table containing the entries relevant here
(as Go's `mime` package reports them on a typical system). -/
def mimeTable (ext : String) : String :=
  if ext = ".mp4" then "video/mp4"
  else if ext = ".webm" then "video/webm"
  else if ext = ".html" then "text/html; charset=utf-8"
  else ""

/-!  Spec-side definitions for the deduplication claim (C6): the spec
describes the normalizer as "deduplicate on the triple (kind, quality
label, container): first occurrence wins". -/

/-- The (kind, quality label, container) triple of a descriptor. -/
def triple (d : Format) : String × String × String :=
  (d.Typ, d.Quality, d.Ext)

/-- The dedup key as a function of the triple; `dedupKey d` is literally
`keyOfTriple (triple d)`. -/
def keyOfTriple (t : String × String × String) : String :=
  t.1 ++ "-" ++ t.2.1 ++ "-" ++ t.2.2

/-- Spec-side deduplication: keep the first occurrence of each (kind,
quality, container) triple, preserving order. -/
def keepFirstByTripleLoop : List Format → List (String × String × String) → List Format
  | [], _ => []
  | d :: rest, seen =>
    if triple d ∈ seen then keepFirstByTripleLoop rest seen
    else d :: keepFirstByTripleLoop rest (triple d :: seen)

def keepFirstByTriple (l : List Format) : List Format :=
  keepFirstByTripleLoop l []

/-- The branch structure of the `parseFormats` classification (source
lines 164–186): audio when the video codec tag is literally "none" and an
audio codec tag is present, video when the video codec tag is anything
else, skip otherwise. -/
def classifyTrack (f : YtdlpFormat) : Option String :=
  if f.VCodec = "none" ∧ f.ACodec ≠ "none" then some "audio"
  else if f.VCodec ≠ "none" then some "video"
  else none

/-!  Helper lemmas.  -/

/-- Triples the normalizer can actually produce: audio descriptors carry a
dash-free quality label, video descriptors always carry the `mp4`
container. -/
def RealizableT (t : String × String × String) : Prop :=
  (t.1 = "audio" ∧ '-' ∉ t.2.1.data) ∨ (t.1 = "video" ∧ t.2.2 = "mp4")

theorem digitChar_ne_dash (n : Nat) (h : n < 10) : Nat.digitChar n ≠ '-' := by
  interval_cases n <;> decide

theorem dash_not_mem_decDigitsCore (fuel n : Nat) : '-' ∉ decDigitsCore fuel n := by
  induction fuel generalizing n with
  | zero => simp [decDigitsCore]
  | succ fuel ih =>
    simp only [decDigitsCore]
    split
    · next h =>
      simp only [List.mem_singleton]
      exact fun hc => digitChar_ne_dash n h hc.symm
    · next h =>
      intro hmem
      rcases List.mem_append.1 hmem with h1 | h1
      · exact ih _ h1
      · have : Nat.digitChar (n % 10) ≠ '-' :=
          digitChar_ne_dash _ (Nat.mod_lt _ (by omega))
        simp only [List.mem_singleton] at h1
        exact this h1.symm

theorem dash_not_mem_natToDecimal (n : Nat) : '-' ∉ (natToDecimal n).data :=
  dash_not_mem_decDigitsCore (n + 1) n

theorem dash_not_mem_append {a b : String}
    (ha : '-' ∉ a.data) (hb : '-' ∉ b.data) : '-' ∉ (a ++ b).data := by
  rw [String.data_append]
  intro h
  rcases List.mem_append.1 h with h | h
  · exact ha h
  · exact hb h

/-- Every descriptor `parseOne` produces has a realizable triple. -/
theorem parseOne_realizable {f : YtdlpFormat} {d : Format}
    (h : parseOne f = some d) : RealizableT (triple d) := by
  unfold parseOne at h
  split at h
  · exact absurd h (by simp)
  split at h
  · -- audio branch
    simp only [Option.some.injEq] at h
    subst h
    left
    refine ⟨rfl, ?_⟩
    show '-' ∉ (if f.ABR > 0 then natToDecimal f.ABR.toNat ++ "kbps" else "audio").data
    split
    · exact dash_not_mem_append (dash_not_mem_natToDecimal _) (by decide)
    · decide
  split at h
  · -- video branch
    rename_i hext
    split at h
    · exact absurd h (by simp)
    rename_i hmp4
    split at h
    · simp only [Option.some.injEq] at h
      subst h
      right
      exact ⟨rfl, not_not.1 hmp4⟩
    split at h
    · simp only [Option.some.injEq] at h
      subst h
      right
      exact ⟨rfl, not_not.1 hmp4⟩
    · exact absurd h (by simp)
  · exact absurd h (by simp)

theorem keyOfTriple_data (t : String × String × String) :
    (keyOfTriple t).data = t.1.data ++ '-' :: (t.2.1.data ++ '-' :: t.2.2.data) := by
  show (t.1 ++ "-" ++ t.2.1 ++ "-" ++ t.2.2).data = _
  simp [String.data_append, List.append_assoc]

/-- Splitting a concatenation at the first dash: when both left parts are
dash-free, equal concatenations force equal parts. -/
theorem dash_split {l1 l2 r1 r2 : List Char} (h1 : '-' ∉ l1) (h2 : '-' ∉ l2)
    (h : l1 ++ '-' :: r1 = l2 ++ '-' :: r2) : l1 = l2 ∧ r1 = r2 := by
  induction l1 generalizing l2 with
  | nil =>
    cases l2 with
    | nil => simpa using h
    | cons c l2' =>
      simp only [List.nil_append, List.cons_append, List.cons.injEq] at h
      cases h.1
      exact absurd (List.mem_cons_self _ l2') h2
  | cons c l1' ih =>
    cases l2 with
    | nil =>
      simp only [List.cons_append, List.nil_append, List.cons.injEq] at h
      cases h.1.symm
      exact absurd (List.mem_cons_self _ l1') h1
    | cons c' l2' =>
      simp only [List.cons_append, List.cons.injEq] at h
      obtain ⟨rfl, h⟩ := h
      have h1' : '-' ∉ l1' := fun hm => h1 (List.mem_cons_of_mem _ hm)
      have h2' : '-' ∉ l2' := fun hm => h2 (List.mem_cons_of_mem _ hm)
      obtain ⟨rfl, rfl⟩ := ih h1' h2' h
      exact ⟨rfl, rfl⟩

/-- On realizable triples the dedup key is injective: two descriptors the
normalizer can produce share a key only if they share the whole (kind,
quality, container) triple. -/
theorem keyOfTriple_inj {t1 t2 : String × String × String}
    (h1 : RealizableT t1) (h2 : RealizableT t2)
    (h : keyOfTriple t1 = keyOfTriple t2) : t1 = t2 := by
  obtain ⟨k1, q1, e1⟩ := t1
  obtain ⟨k2, q2, e2⟩ := t2
  have hd := congrArg String.data h
  rw [keyOfTriple_data, keyOfTriple_data] at hd
  simp only at hd
  rcases h1 with ⟨hk1, hq1⟩ | ⟨hk1, he1⟩ <;>
    rcases h2 with ⟨hk2, hq2⟩ | ⟨hk2, he2⟩ <;> subst hk1 <;> subst hk2
  · -- audio / audio
    have := List.append_cancel_left hd
    simp only [List.cons.injEq, true_and] at this
    obtain ⟨hq, he⟩ := dash_split hq1 hq2 this
    exact Prod.ext rfl (Prod.ext (String.ext hq) (String.ext he))
  · -- audio / video: the keys start with different characters
    rw [show "audio".data = ['a', 'u', 'd', 'i', 'o'] from rfl,
        show "video".data = ['v', 'i', 'd', 'e', 'o'] from rfl] at hd
    simp at hd
  · -- video / audio
    rw [show "audio".data = ['a', 'u', 'd', 'i', 'o'] from rfl,
        show "video".data = ['v', 'i', 'd', 'e', 'o'] from rfl] at hd
    simp at hd
  · -- video / video: both containers are "mp4", cancel it on the right
    subst he1
    subst he2
    have := List.append_cancel_left hd
    simp only [List.cons.injEq, true_and] at this
    have hlen : q1.data.length = q2.data.length := by
      have := congrArg List.length this
      simp only [List.length_append, List.length_cons] at this
      omega
    obtain ⟨hq, _⟩ := List.append_inj this hlen
    exact Prod.ext rfl (Prod.ext (String.ext hq) rfl)

theorem dedupKey_eq_keyOfTriple (d : Format) : dedupKey d = keyOfTriple (triple d) :=
  rfl

/-- The normalizer loop coincides with spec-side "first (kind, quality,
container) occurrence wins" deduplication, for any seen-set of realizable
triples. -/
theorem parseFormatsLoop_eq_keepFirst (l : List YtdlpFormat)
    (seenT : List (String × String × String))
    (hseen : ∀ t ∈ seenT, RealizableT t) :
    parseFormatsLoop l (seenT.map keyOfTriple) =
      keepFirstByTripleLoop (l.filterMap parseOne) seenT := by
  induction l generalizing seenT with
  | nil => simp [parseFormatsLoop, keepFirstByTripleLoop]
  | cons f rest ih =>
    cases hp : parseOne f with
    | none =>
      simp only [parseFormatsLoop, hp, List.filterMap_cons]
      exact ih seenT hseen
    | some d =>
      have hreal : RealizableT (triple d) := parseOne_realizable hp
      have hmemiff : (dedupKey d ∈ seenT.map keyOfTriple) ↔ triple d ∈ seenT := by
        constructor
        · intro hm
          obtain ⟨t, htmem, hteq⟩ := List.mem_map.1 hm
          have : t = triple d :=
            keyOfTriple_inj (hseen t htmem) hreal
              (hteq.trans (dedupKey_eq_keyOfTriple d))
          exact this ▸ htmem
        · intro hm
          exact (dedupKey_eq_keyOfTriple d) ▸ List.mem_map_of_mem keyOfTriple hm
      simp only [parseFormatsLoop, hp, List.filterMap_cons, keepFirstByTripleLoop]
      by_cases hmem : triple d ∈ seenT
      · rw [if_pos (hmemiff.2 hmem), if_pos hmem]
        exact ih seenT hseen
      · rw [if_neg (fun hc => hmem (hmemiff.1 hc)), if_neg hmem]
        have hseen' : ∀ t ∈ triple d :: seenT, RealizableT t := by
          intro t ht
          rcases List.mem_cons.1 ht with rfl | ht
          · exact hreal
          · exact hseen t ht
        have := ih (triple d :: seenT) hseen'
        simp only [List.map_cons, ← dedupKey_eq_keyOfTriple] at this
        rw [this]

/-- The spec-side deduplication only ever drops entries, in order. -/
theorem keepFirstLoop_sublist :
    ∀ (l : List Format) (seen : List (String × String × String)),
      (keepFirstByTripleLoop l seen).Sublist l := by
  intro l
  induction l with
  | nil => intro seen; simp [keepFirstByTripleLoop]
  | cons d rest ih =>
    intro seen
    simp only [keepFirstByTripleLoop]
    split
    · exact (ih seen).cons d
    · exact (ih (triple d :: seen)).cons₂ d

/-- The spec-side deduplication yields pairwise distinct triples, all of
them outside the seen-set. -/
theorem keepFirstLoop_triples_nodup :
    ∀ (l : List Format) (seen : List (String × String × String)),
      ((keepFirstByTripleLoop l seen).map triple).Nodup ∧
        ∀ t ∈ (keepFirstByTripleLoop l seen).map triple, t ∉ seen := by
  intro l
  induction l with
  | nil => intro seen; simp [keepFirstByTripleLoop]
  | cons d rest ih =>
    intro seen
    simp only [keepFirstByTripleLoop]
    split
    · exact ih seen
    · next hmem =>
      obtain ⟨ihnodup, ihout⟩ := ih (triple d :: seen)
      simp only [List.map_cons, List.nodup_cons]
      refine ⟨⟨fun hc => ?_, ihnodup⟩, ?_⟩
      · exact (ihout _ hc) (List.mem_cons_self _ _)
      · intro t ht
        rcases List.mem_cons.1 ht with rfl | ht
        · exact hmem
        · exact fun hc => (ihout t ht) (List.mem_cons_of_mem _ hc)

theorem mem_parseFormatsLoop {d : Format} :
    ∀ (l : List YtdlpFormat) (seen : List String),
      d ∈ parseFormatsLoop l seen → ∃ f ∈ l, parseOne f = some d := by
  intro l
  induction l with
  | nil => intro seen h; simp [parseFormatsLoop] at h
  | cons f rest ih =>
    intro seen h
    simp only [parseFormatsLoop] at h
    rcases hp : parseOne f with _ | d'
    · simp only [hp] at h
      obtain ⟨g, hg, hgd⟩ := ih seen h
      exact ⟨g, List.mem_cons_of_mem f hg, hgd⟩
    · simp only [hp] at h
      split at h
      · obtain ⟨g, hg, hgd⟩ := ih seen h
        exact ⟨g, List.mem_cons_of_mem f hg, hgd⟩
      · rcases List.mem_cons.1 h with rfl | h
        · exact ⟨f, List.mem_cons_self f rest, hp⟩
        · obtain ⟨g, hg, hgd⟩ := ih _ h
          exact ⟨g, List.mem_cons_of_mem f hg, hgd⟩

/-- C6 (confirmed).  For every input sequence of raw encodings the
normalizer equals the spec-side pass that keeps the first occurrence of
each (kind, quality label, container) triple and drops later ones: hence
no two output descriptors share a triple, and the survivors keep the
original input order (a sublist of the classified inputs). -/
theorem claim6_dedup_triple_first_wins (fs : List YtdlpFormat) :
    parseFormats fs = keepFirstByTriple (fs.filterMap parseOne) ∧
    ((parseFormats fs).map triple).Nodup ∧
    (parseFormats fs).Sublist (fs.filterMap parseOne) := by
  have h : parseFormats fs = keepFirstByTriple (fs.filterMap parseOne) := by
    have h0 := parseFormatsLoop_eq_keepFirst fs [] (by simp)
    simpa [parseFormats, keepFirstByTriple] using h0
  refine ⟨h, ?_, ?_⟩
  · rw [h]
    exact (keepFirstLoop_triples_nodup _ _).1
  · rw [h]
    exact keepFirstLoop_sublist _ _

/-- C7 (confirmed).  No `video` descriptor with a container other than
`mp4` ever appears in the normalizer output. -/
theorem claim7_video_only_mp4 (fs : List YtdlpFormat) (d : Format)
    (hmem : d ∈ parseFormats fs) (hv : d.Typ = "video") : d.Ext = "mp4" := by
  obtain ⟨f, _, hf⟩ := mem_parseFormatsLoop fs [] hmem
  rcases parseOne_realizable hf with ⟨hk, _⟩ | ⟨_, he⟩
  · rw [show (triple d).1 = d.Typ from rfl] at hk
    rw [hk] at hv
    exact absurd hv (by decide)
  · exact he

/-- Witness for C7 at a concrete input: the 1080p mp4 encoding survives
normalization and indeed carries the mp4 container. -/
theorem claim7_video_only_mp4_witness :
    (⟨"137", "video", "1080p", "mp4", 0⟩ : Format).Ext = "mp4" :=
  claim7_video_only_mp4 [⟨"137", "mp4", "", "avc1", "none", 0, 0, 1080, ""⟩]
    ⟨"137", "video", "1080p", "mp4", 0⟩ (by decide) (by decide)

/-- Exhaustive enumeration of the download handler's outcomes: one
disjunct per exit path of `ServeHTTP`. -/
theorem serveHTTP_cases (req : Request) (env : HandlerEnv) (s0 : Sem) :
    serveHTTP req env s0 = ⟨405, s0, false, false, 0, false, [], none⟩ ∨
    serveHTTP req env s0 = ⟨400, s0, false, false, 0, false, [], none⟩ ∨
    serveHTTP req env s0 = ⟨503, s0, true, false, 0, false, [], none⟩ ∨
    serveHTTP req env s0 = ⟨500, s0, true, true, 1, false, [], none⟩ ∨
    (∃ e, env.downloadResult = .error e ∧
      serveHTTP req env s0 = ⟨500, s0, true, true, 1, true, [], none⟩) ∨
    (∃ t n, env.downloadResult = .ok (t, n) ∧
      (serveHTTP req env s0 = ⟨500, s0, true, true, 1, true, [t], none⟩ ∨
       serveHTTP req env s0 = ⟨200, s0, true, true, 1, true, [t], some t⟩)) := by
  obtain ⟨cap, held⟩ := s0
  by_cases h1 : req.method ≠ "GET"
  · exact Or.inl (by simp [serveHTTP, h1])
  by_cases h2 : req.urlParam = ""
  · exact Or.inr (Or.inl (by simp [serveHTTP, h1, h2]))
  rcases hdec : env.decodeResult with _ | u
  · exact Or.inr (Or.inl (by simp [serveHTTP, h1, h2, hdec]))
  by_cases hc : held < cap
  case neg =>
    refine Or.inr (Or.inr (Or.inl ?_))
    simp [serveHTTP, h1, h2, hdec, tryAcquire, hc]
  case pos =>
  by_cases hmk : env.mkdirOk
  case neg =>
    refine Or.inr (Or.inr (Or.inr (Or.inl ?_)))
    simp [serveHTTP, h1, h2, hdec, tryAcquire, hc, hmk, release]
  case pos =>
  rcases hdl : env.downloadResult with e | ⟨t, n⟩
  · refine Or.inr (Or.inr (Or.inr (Or.inr (Or.inl ⟨e, rfl, ?_⟩))))
    simp [serveHTTP, h1, h2, hdec, tryAcquire, hc, hmk, hdl, release]
  · refine Or.inr (Or.inr (Or.inr (Or.inr (Or.inr ⟨t, n, rfl, ?_⟩))))
    by_cases hop : env.openOk
    case neg =>
      exact Or.inl (by
        simp [serveHTTP, h1, h2, hdec, tryAcquire, hc, hmk, hdl, hop, release])
    case pos =>
    by_cases hst : env.statOk
    case neg =>
      exact Or.inl (by
        simp [serveHTTP, h1, h2, hdec, tryAcquire, hc, hmk, hdl, hop, hst, release])
    case pos =>
    by_cases hcp : env.copyOk
    case neg =>
      exact Or.inr (by
        simp [serveHTTP, h1, h2, hdec, tryAcquire, hc, hmk, hdl, hop, hst, hcp,
          release])
    case pos =>
      exact Or.inr (by
        simp [serveHTTP, h1, h2, hdec, tryAcquire, hc, hmk, hdl, hop, hst, hcp,
          release])

/-- C1 (confirmed).  In every run of the download handler the external
download is invoked only after a successful permit acquisition; a
successful acquisition is released exactly once by the time the handler
returns (and an unsuccessful one never is), so the permit pool always
returns to its initial state. -/
theorem claim1_permit_acquired_released_once (req : Request) (env : HandlerEnv)
    (s0 : Sem) :
    ((serveHTTP req env s0).downloadInvoked = true →
      (serveHTTP req env s0).acquired = true) ∧
    ((serveHTTP req env s0).acquired = true →
      (serveHTTP req env s0).releases = 1) ∧
    ((serveHTTP req env s0).acquired = false →
      (serveHTTP req env s0).releases = 0) ∧
    (serveHTTP req env s0).sem = s0 := by
  rcases serveHTTP_cases req env s0 with h | h | h | h | ⟨e, _, h⟩ | ⟨t, n, _, h | h⟩ <;>
    rw [h] <;> simp

/-- Witness for C1: a concrete request through the full success path
acquires and releases exactly once. -/
theorem claim1_witness :
    (serveHTTP ⟨"GET", "u", "", ""⟩
      ⟨some "u", true, .ok ("/tmp/viddown/1_a.mp4", "a.mp4"), true, true, true⟩
      ⟨3, 0⟩).releases = 1 :=
  (claim1_permit_acquired_released_once ⟨"GET", "u", "", ""⟩
    ⟨some "u", true, .ok ("/tmp/viddown/1_a.mp4", "a.mp4"), true, true, true⟩
    ⟨3, 0⟩).2.1 (by rfl)

/-- C2 (confirmed).  Whenever `TryAcquire` answers `false` the handler
responds 503 and returns at once: the external download is never invoked,
nothing is removed or streamed, and the permit pool is untouched. -/
theorem claim2_busy_rejected_immediately (req : Request) (env : HandlerEnv)
    (s0 : Sem) (htried : (serveHTTP req env s0).triedAcquire = true)
    (hfail : (serveHTTP req env s0).acquired = false) :
    (serveHTTP req env s0).status = 503 ∧
    (serveHTTP req env s0).downloadInvoked = false ∧
    (serveHTTP req env s0).removed = [] ∧
    (serveHTTP req env s0).streamedFile = none ∧
    (serveHTTP req env s0).sem = s0 := by
  rcases serveHTTP_cases req env s0 with h | h | h | h | ⟨e, _, h⟩ | ⟨t, n, _, h | h⟩ <;>
    rw [h] at htried hfail ⊢ <;> simp_all

/-- Witness for C2: with every permit held (capacity 1, one holder), a
well-formed request is turned away with 503 and no download starts. -/
theorem claim2_witness :
    (serveHTTP ⟨"GET", "u", "", ""⟩
      ⟨some "u", true, .ok ("/tmp/viddown/1_a.mp4", "a.mp4"), true, true, true⟩
      ⟨1, 1⟩).status = 503 ∧
    (serveHTTP ⟨"GET", "u", "", ""⟩
      ⟨some "u", true, .ok ("/tmp/viddown/1_a.mp4", "a.mp4"), true, true, true⟩
      ⟨1, 1⟩).downloadInvoked = false ∧
    (serveHTTP ⟨"GET", "u", "", ""⟩
      ⟨some "u", true, .ok ("/tmp/viddown/1_a.mp4", "a.mp4"), true, true, true⟩
      ⟨1, 1⟩).removed = [] ∧
    (serveHTTP ⟨"GET", "u", "", ""⟩
      ⟨some "u", true, .ok ("/tmp/viddown/1_a.mp4", "a.mp4"), true, true, true⟩
      ⟨1, 1⟩).streamedFile = none ∧
    (serveHTTP ⟨"GET", "u", "", ""⟩
      ⟨some "u", true, .ok ("/tmp/viddown/1_a.mp4", "a.mp4"), true, true, true⟩
      ⟨1, 1⟩).sem = ⟨1, 1⟩ :=
  claim2_busy_rejected_immediately ⟨"GET", "u", "", ""⟩
    ⟨some "u", true, .ok ("/tmp/viddown/1_a.mp4", "a.mp4"), true, true, true⟩
    ⟨1, 1⟩ (by rfl) (by rfl)

/-- C3 (confirmed).  Whenever `DownloadToFile` is invoked and succeeds
with a temp-file path, the handler removes exactly that file exactly once
by the time it returns, on every outcome of the open/stat/copy phase. -/
theorem claim3_temp_file_removed_once (req : Request) (env : HandlerEnv)
    (s0 : Sem) (tempFile filename : String)
    (hdl : env.downloadResult = .ok (tempFile, filename))
    (hinv : (serveHTTP req env s0).downloadInvoked = true) :
    (serveHTTP req env s0).removed = [tempFile] ∧
    (serveHTTP req env s0).removed.count tempFile = 1 := by
  rcases serveHTTP_cases req env s0 with h | h | h | h | ⟨e, he, h⟩ | ⟨t, n, ht, h | h⟩ <;>
    rw [h] at hinv ⊢ <;> simp_all

/-- Witness for C3: on a run whose copy phase fails mid-stream, the temp
file is still removed exactly once. -/
theorem claim3_witness :
    (serveHTTP ⟨"GET", "u", "", ""⟩
      ⟨some "u", true, .ok ("/tmp/viddown/1_a.mp4", "a.mp4"), true, true, false⟩
      ⟨3, 0⟩).removed = ["/tmp/viddown/1_a.mp4"] ∧
    (serveHTTP ⟨"GET", "u", "", ""⟩
      ⟨some "u", true, .ok ("/tmp/viddown/1_a.mp4", "a.mp4"), true, true, false⟩
      ⟨3, 0⟩).removed.count "/tmp/viddown/1_a.mp4" = 1 :=
  claim3_temp_file_removed_once ⟨"GET", "u", "", ""⟩
    ⟨some "u", true, .ok ("/tmp/viddown/1_a.mp4", "a.mp4"), true, true, false⟩
    ⟨3, 0⟩ "/tmp/viddown/1_a.mp4" "a.mp4" (by rfl) (by rfl)

/-- Counterexample for C4: with two glob matches (and a non-empty file),
`DownloadToFile` does not fail — it succeeds with the first match. -/
theorem claim4_counterexample :
    (["/tmp/viddown/1_a.mp4", "/tmp/viddown/1_b.mp4"] : List String).length = 2 ∧
    downloadToFileLocate
      ⟨false, ["/tmp/viddown/1_a.mp4", "/tmp/viddown/1_b.mp4"], fun _ => some 100⟩ =
      .ok ("/tmp/viddown/1_a.mp4", "a.mp4") :=
  ⟨rfl, rfl⟩

/-- C4 (corrected).  `DownloadToFile` errors when the glob fails or finds
zero matches; with more than one match it does not error but behaves
exactly as if only the first match existed. -/
theorem claim4_zero_matches_error_first_match_used
    (stat : String → Option Int) (m : String) (rest : List String) :
    downloadToFileLocate ⟨false, [], stat⟩ =
      .error "could not find downloaded file" ∧
    downloadToFileLocate ⟨true, m :: rest, stat⟩ =
      .error "could not find downloaded file" ∧
    downloadToFileLocate ⟨false, m :: rest, stat⟩ =
      downloadToFileLocate ⟨false, [m], stat⟩ :=
  ⟨rfl, rfl, rfl⟩

/-- Counterexample for C5: the ranker's offers carry no English
"(video + audio)" / "(video only)" labels at all (they are worded in
Russian). -/
theorem claim5_counterexample :
    (GetBestFormats (parseFormats
        [⟨"137", "mp4", "", "avc1", "none", 0, 0, 1080, ""⟩,
         ⟨"140", "m4a", "", "none", "mp4a", 0, 128, 0, ""⟩,
         ⟨"251", "webm", "", "none", "opus", 0, 160, 0, ""⟩])).countP
      (fun f => f.Quality == "1080p Full HD (video + audio)" ||
        f.Quality == "1080p Full HD (video only)") = 0 ∧
    (GetBestFormats (parseFormats
        [⟨"137", "mp4", "", "avc1", "none", 0, 0, 1080, ""⟩,
         ⟨"140", "m4a", "", "none", "mp4a", 0, 128, 0, ""⟩,
         ⟨"251", "webm", "", "none", "opus", 0, 160, 0, ""⟩])).length = 3 := by
  decide

/-- C5 (corrected).  On the three-encoding input the normalizer yields
exactly the 1080p video and the 128kbps and 160kbps audio descriptors, and
the ranker offers the 160kbps audio as best audio, `"137+251"` labeled
`"1080p Full HD (видео + аудио)"` and `"137"` labeled
`"1080p Full HD (только видео)"` (the Russian wordings of
"video + audio" / "video only"). -/
theorem claim5_concrete_pipeline :
    parseFormats
        [⟨"137", "mp4", "", "avc1", "none", 0, 0, 1080, ""⟩,
         ⟨"140", "m4a", "", "none", "mp4a", 0, 128, 0, ""⟩,
         ⟨"251", "webm", "", "none", "opus", 0, 160, 0, ""⟩] =
      [⟨"137", "video", "1080p", "mp4", 0⟩,
       ⟨"140", "audio", "128kbps", "m4a", 0⟩,
       ⟨"251", "audio", "160kbps", "webm", 0⟩] ∧
    GetBestFormats
        [⟨"137", "video", "1080p", "mp4", 0⟩,
         ⟨"140", "audio", "128kbps", "m4a", 0⟩,
         ⟨"251", "audio", "160kbps", "webm", 0⟩] =
      [⟨"251", "audio", "Лучшее аудио (160kbps)", "webm", 0⟩,
       ⟨"137+251", "video", "1080p Full HD (видео + аудио)", "mp4", 0⟩,
       ⟨"137", "video_only", "1080p Full HD (только видео)", "mp4", 0⟩] := by
  decide

/-- Counterexample for C9: an extension outside the media-type table gets
`application/octet-stream`, not mp4's media type. -/
theorem claim9_counterexample :
    filepathExt "video.xyz" = ".xyz" ∧
    mimeTable ".xyz" = "" ∧
    mimeTable ".mp4" = "video/mp4" ∧
    contentTypeFor mimeTable "video.xyz" = "application/octet-stream" ∧
    contentTypeFor mimeTable "video.xyz" ≠ "video/mp4" := by
  decide

/-- C9 (corrected).  The Content-Type comes from the file's extension (an
empty extension is first replaced by `.mp4`); when the media-type lookup
has no entry for that extension the handler falls back to the generic
`application/octet-stream`, not to mp4's media type. -/
theorem claim9_content_type_from_extension
    (lookup : String → String) (filename : String) :
    (lookup (if filepathExt filename = "" then ".mp4" else filepathExt filename) ≠ "" →
      contentTypeFor lookup filename =
        lookup (if filepathExt filename = "" then ".mp4" else filepathExt filename)) ∧
    (lookup (if filepathExt filename = "" then ".mp4" else filepathExt filename) = "" →
      contentTypeFor lookup filename = "application/octet-stream") := by
  constructor <;> intro h <;> simp [contentTypeFor, h]

/-- Witness for C9: a mapped default extension resolves through the table,
an unmapped one falls back. -/
theorem claim9_witness :
    contentTypeFor mimeTable "file" = "video/mp4" ∧
    contentTypeFor mimeTable "file.xyz" = "application/octet-stream" :=
  ⟨((claim9_content_type_from_extension mimeTable "file").1 (by decide)).trans
      (by decide),
   (claim9_content_type_from_extension mimeTable "file.xyz").2 (by decide)⟩

/-- C10 (confirmed).  Classification tests the literal codec tag "none"
only: an encoding whose video codec field is the empty string is always
classified `video` (then subjected to the mp4-only container filter),
never `audio` and never skipped as track-less — even when the audio codec
field is empty too. -/
theorem claim10_empty_vcodec_is_video (f : YtdlpFormat) (hv : f.VCodec = "") :
    classifyTrack f = some "video" ∧
    (∀ d, parseOne f = some d → d.Typ = "video") ∧
    (f.FormatID ≠ "" → f.Ext ≠ "mp4" → parseOne f = none) ∧
    (f.FormatID ≠ "" → f.Ext = "mp4" → 0 < f.Height →
      parseOne f = some ⟨f.FormatID, "video",
        natToDecimal f.Height.toNat ++ "p", "mp4", f.Filesize⟩) := by
  refine ⟨?_, ?_, ?_, ?_⟩
  · simp [classifyTrack, hv]
  · intro d hd
    unfold parseOne at hd
    rw [hv] at hd
    split at hd
    · exact absurd hd (by simp)
    split at hd
    · rename_i hcond
      exact absurd hcond.1 (by decide)
    split at hd
    · split at hd
      · exact absurd hd (by simp)
      split at hd
      · simp only [Option.some.injEq] at hd
        exact hd ▸ rfl
      split at hd
      · simp only [Option.some.injEq] at hd
        exact hd ▸ rfl
      · exact absurd hd (by simp)
    · exact absurd hd (by simp)
  · intro hid hext
    simp [parseOne, hv, hid, hext]
  · intro hid hext hh
    simp [parseOne, hv, hid, hext, hh]

/-- Witness for C10: a raw encoding with empty video and audio codec tags
is classified as video; with a webm container it is filtered out, with an
mp4 container and a height it survives as a 720p video descriptor. -/
theorem claim10_witness :
    classifyTrack ⟨"22", "webm", "", "", "", 0, 0, 720, ""⟩ = some "video" ∧
    parseOne ⟨"22", "webm", "", "", "", 0, 0, 720, ""⟩ = none ∧
    parseOne ⟨"22", "mp4", "", "", "", 0, 0, 720, ""⟩ =
      some ⟨"22", "video", "720p", "mp4", 0⟩ :=
  ⟨(claim10_empty_vcodec_is_video ⟨"22", "webm", "", "", "", 0, 0, 720, ""⟩ rfl).1,
   (claim10_empty_vcodec_is_video ⟨"22", "webm", "", "", "", 0, 0, 720, ""⟩ rfl).2.2.1
     (by decide) (by decide),
   (claim10_empty_vcodec_is_video ⟨"22", "mp4", "", "", "", 0, 0, 720, ""⟩ rfl).2.2.2
     (by decide) (by decide) (by decide)⟩

/-- Predicate: a merged (video + audio) offer of the given tier. -/
def isMergedOffer (res : Nat) (f : Format) : Bool :=
  f.Typ == "video" && f.Quality == resLabels res ++ " (видео + аудио)"

/-- Predicate: a video-only offer of the given tier. -/
def isVideoOnlyOffer (res : Nat) (f : Format) : Bool :=
  f.Typ == "video_only" && f.Quality == resLabels res ++ " (только видео)"

theorem tierOffers_length_le (ba : Option Format) (fs : List Format) (res : Nat) :
    (tierOffers ba fs res).length ≤ 2 := by
  unfold tierOffers
  rcases fs.find? _ with _ | f
  · simp
  · rcases ba with _ | b <;> simp

theorem tierOffers_countP_audio (ba : Option Format) (fs : List Format) (res : Nat) :
    (tierOffers ba fs res).countP (fun f => f.Typ == "audio") = 0 := by
  unfold tierOffers
  rcases fs.find? _ with _ | f
  · simp
  · rcases ba with _ | b <;> simp [List.countP_cons]

theorem tierOffers_countP_merged_le (ba : Option Format) (fs : List Format)
    (res r : Nat) : (tierOffers ba fs res).countP (isMergedOffer r) ≤ 1 := by
  unfold tierOffers
  rcases fs.find? _ with _ | f
  · simp
  · rcases ba with _ | b <;>
      simp [isMergedOffer, List.countP_cons] <;> split <;> simp

theorem tierOffers_countP_merged_ne (ba : Option Format) (fs : List Format)
    (res r : Nat)
    (h : resLabels r ++ " (видео + аудио)" ≠ resLabels res ++ " (видео + аудио)") :
    (tierOffers ba fs res).countP (isMergedOffer r) = 0 := by
  unfold tierOffers
  rcases fs.find? _ with _ | f
  · simp
  · rcases ba with _ | b <;> simp [isMergedOffer, List.countP_cons, Ne.symm h]

theorem tierOffers_countP_vonly_le (ba : Option Format) (fs : List Format)
    (res r : Nat) : (tierOffers ba fs res).countP (isVideoOnlyOffer r) ≤ 1 := by
  unfold tierOffers
  rcases fs.find? _ with _ | f
  · simp
  · rcases ba with _ | b <;>
      simp [isVideoOnlyOffer, List.countP_cons] <;> split <;> simp

theorem tierOffers_countP_vonly_ne (ba : Option Format) (fs : List Format)
    (res r : Nat)
    (h : resLabels r ++ " (только видео)" ≠ resLabels res ++ " (только видео)") :
    (tierOffers ba fs res).countP (isVideoOnlyOffer r) = 0 := by
  unfold tierOffers
  rcases fs.find? _ with _ | f
  · simp
  · rcases ba with _ | b <;> simp [isVideoOnlyOffer, List.countP_cons, Ne.symm h]

/-- The standalone best-audio offer `GetBestFormats` prepends (empty when
no audio descriptor exists). -/
def bestAudioOffer : Option Format → List Format
  | some b => [⟨b.ID, "audio", "Лучшее аудио (" ++ b.Quality ++ ")", b.Ext, b.Size⟩]
  | none => []

theorem bestAudioOffer_length_le (ba : Option Format) :
    (bestAudioOffer ba).length ≤ 1 := by
  rcases ba with _ | b <;> simp [bestAudioOffer]

theorem bestAudioOffer_countP_audio (ba : Option Format) :
    (bestAudioOffer ba).countP (fun f => f.Typ == "audio") ≤ 1 := by
  rcases ba with _ | b <;> simp [bestAudioOffer, List.countP_cons]

theorem bestAudioOffer_countP_merged (ba : Option Format) (r : Nat) :
    (bestAudioOffer ba).countP (isMergedOffer r) = 0 := by
  rcases ba with _ | b <;> simp [bestAudioOffer, isMergedOffer, List.countP_cons]

theorem bestAudioOffer_countP_vonly (ba : Option Format) (r : Nat) :
    (bestAudioOffer ba).countP (isVideoOnlyOffer r) = 0 := by
  rcases ba with _ | b <;> simp [bestAudioOffer, isVideoOnlyOffer, List.countP_cons]

/-- C8 (confirmed).  For every input the ranker emits at most one best
audio offer, and per tier (360, 480, 720, 1080) at most one merged and at
most one video-only offer; its output never exceeds 9 entries. -/
theorem claim8_ranker_output_bounds (fs : List Format) :
    (GetBestFormats fs).length ≤ 9 ∧
    (GetBestFormats fs).countP (fun f => f.Typ == "audio") ≤ 1 ∧
    (GetBestFormats fs).countP (isMergedOffer 360) ≤ 1 ∧
    (GetBestFormats fs).countP (isVideoOnlyOffer 360) ≤ 1 ∧
    (GetBestFormats fs).countP (isMergedOffer 480) ≤ 1 ∧
    (GetBestFormats fs).countP (isVideoOnlyOffer 480) ≤ 1 ∧
    (GetBestFormats fs).countP (isMergedOffer 720) ≤ 1 ∧
    (GetBestFormats fs).countP (isVideoOnlyOffer 720) ≤ 1 ∧
    (GetBestFormats fs).countP (isMergedOffer 1080) ≤ 1 ∧
    (GetBestFormats fs).countP (isVideoOnlyOffer 1080) ≤ 1 := by
  have hdef : GetBestFormats fs =
      bestAudioOffer (findBestAudio fs) ++
      (tierOffers (findBestAudio fs) fs 360 ++
        (tierOffers (findBestAudio fs) fs 480 ++
          (tierOffers (findBestAudio fs) fs 720 ++
            (tierOffers (findBestAudio fs) fs 1080 ++ [])))) := by
    rcases hba : findBestAudio fs with _ | b <;>
      simp [GetBestFormats, bestAudioOffer, hba, List.flatMap_cons]
  rw [hdef]
  simp only [List.countP_append, List.length_append, List.append_nil,
    List.countP_nil, List.length_nil]
  have hL0 := bestAudioOffer_length_le (findBestAudio fs)
  have hL1 := tierOffers_length_le (findBestAudio fs) fs 360
  have hL2 := tierOffers_length_le (findBestAudio fs) fs 480
  have hL3 := tierOffers_length_le (findBestAudio fs) fs 720
  have hL4 := tierOffers_length_le (findBestAudio fs) fs 1080
  have hA0 := bestAudioOffer_countP_audio (findBestAudio fs)
  have hA1 := tierOffers_countP_audio (findBestAudio fs) fs 360
  have hA2 := tierOffers_countP_audio (findBestAudio fs) fs 480
  have hA3 := tierOffers_countP_audio (findBestAudio fs) fs 720
  have hA4 := tierOffers_countP_audio (findBestAudio fs) fs 1080
  have hM0 := fun r => bestAudioOffer_countP_merged (findBestAudio fs) r
  have hV0 := fun r => bestAudioOffer_countP_vonly (findBestAudio fs) r
  have hM00 := hM0 360
  have hM01 := hM0 480
  have hM02 := hM0 720
  have hM03 := hM0 1080
  have hV00 := hV0 360
  have hV01 := hV0 480
  have hV02 := hV0 720
  have hV03 := hV0 1080
  have hM11 := tierOffers_countP_merged_le (findBestAudio fs) fs 360 360
  have hM22 := tierOffers_countP_merged_le (findBestAudio fs) fs 480 480
  have hM33 := tierOffers_countP_merged_le (findBestAudio fs) fs 720 720
  have hM44 := tierOffers_countP_merged_le (findBestAudio fs) fs 1080 1080
  have hM12 := tierOffers_countP_merged_ne (findBestAudio fs) fs 480 360 (by decide)
  have hM13 := tierOffers_countP_merged_ne (findBestAudio fs) fs 720 360 (by decide)
  have hM14 := tierOffers_countP_merged_ne (findBestAudio fs) fs 1080 360 (by decide)
  have hM21 := tierOffers_countP_merged_ne (findBestAudio fs) fs 360 480 (by decide)
  have hM23 := tierOffers_countP_merged_ne (findBestAudio fs) fs 720 480 (by decide)
  have hM24 := tierOffers_countP_merged_ne (findBestAudio fs) fs 1080 480 (by decide)
  have hM31 := tierOffers_countP_merged_ne (findBestAudio fs) fs 360 720 (by decide)
  have hM32 := tierOffers_countP_merged_ne (findBestAudio fs) fs 480 720 (by decide)
  have hM34 := tierOffers_countP_merged_ne (findBestAudio fs) fs 1080 720 (by decide)
  have hM41 := tierOffers_countP_merged_ne (findBestAudio fs) fs 360 1080 (by decide)
  have hM42 := tierOffers_countP_merged_ne (findBestAudio fs) fs 480 1080 (by decide)
  have hM43 := tierOffers_countP_merged_ne (findBestAudio fs) fs 720 1080 (by decide)
  have hV11 := tierOffers_countP_vonly_le (findBestAudio fs) fs 360 360
  have hV22 := tierOffers_countP_vonly_le (findBestAudio fs) fs 480 480
  have hV33 := tierOffers_countP_vonly_le (findBestAudio fs) fs 720 720
  have hV44 := tierOffers_countP_vonly_le (findBestAudio fs) fs 1080 1080
  have hV12 := tierOffers_countP_vonly_ne (findBestAudio fs) fs 480 360 (by decide)
  have hV13 := tierOffers_countP_vonly_ne (findBestAudio fs) fs 720 360 (by decide)
  have hV14 := tierOffers_countP_vonly_ne (findBestAudio fs) fs 1080 360 (by decide)
  have hV21 := tierOffers_countP_vonly_ne (findBestAudio fs) fs 360 480 (by decide)
  have hV23 := tierOffers_countP_vonly_ne (findBestAudio fs) fs 720 480 (by decide)
  have hV24 := tierOffers_countP_vonly_ne (findBestAudio fs) fs 1080 480 (by decide)
  have hV31 := tierOffers_countP_vonly_ne (findBestAudio fs) fs 360 720 (by decide)
  have hV32 := tierOffers_countP_vonly_ne (findBestAudio fs) fs 480 720 (by decide)
  have hV34 := tierOffers_countP_vonly_ne (findBestAudio fs) fs 1080 720 (by decide)
  have hV41 := tierOffers_countP_vonly_ne (findBestAudio fs) fs 360 1080 (by decide)
  have hV42 := tierOffers_countP_vonly_ne (findBestAudio fs) fs 480 1080 (by decide)
  have hV43 := tierOffers_countP_vonly_ne (findBestAudio fs) fs 720 1080 (by decide)
  refine ⟨?_, ?_, ?_, ?_, ?_, ?_, ?_, ?_, ?_, ?_⟩ <;> omega

end Viddown
